import Mathlib

/-
Shallow embedding of the blabber storage layer (storage.hpp / storage.cpp and
the transaction driver in database.cpp). Machine integers are modelled as Nat
with explicit reduction modulo 2^64 where the source relies on u64 wrap-around.
The prequel containers are modelled by their documented contracts: the posts
B-tree is a list of posts in ascending key order, the per-post comment list is
a Lean list, and the strings heap is an append-only sequence of blobs indexed
by position (heap references are never freed in this program).
-/

namespace Blabber

/-- Error kinds raised by the storage layer: database_error and its
not_found_error subclass in storage.hpp, discriminated here by cause. -/
inductive DbError where
  | stringTooLarge
  | idSpaceExhausted
  | notFound
deriving DecidableEq

/-- Byte strings are modelled as lists of natural numbers (byte values). -/
abbrev Str := List Nat

/-- Maximum object size in the prequel heap: 2^32 - 1 bytes
(the sanity check in store_optimized_string). -/
def u32max : Nat := 2 ^ 32 - 1

/-- Size of the u64 id space. -/
def u64size : Nat := 2 ^ 64

/-- The strings heap: an append-only sequence of blobs. A heap reference is
the index of its blob. -/
abbrev Heap := List Str

/-- Dereference the string and load it from the heap (load_string). -/
def load_string (h : Heap) (r : Nat) : Str := h.getD r []

/-- Store the string on the heap and return a reference to its location
(store_string). The source performs no length check here. -/
def store_string (h : Heap) (s : Str) : Nat × Heap := (h.length, h ++ [s])

/-- The fixed_cstring string_view constructor (fixed_string.hpp): memcpy the
string bytes into m_data and memset the remaining max_size - size bytes to
zero. Its own size guard (throw when size exceeds max_size) is unreachable
from the storage layer, which constructs a fixed_cstring only after checking
size at most Capacity in store_optimized_string; this definition gives the
constructor's value on that domain. -/
def fixed_cstring_make (cap : Nat) (s : Str) : Str :=
  s ++ List.replicate (cap - s.length) 0

/-- fixed_cstring::size (fixed_string.hpp): the index of the first zero byte
in m_data, or max_size when no byte is zero. -/
def fixed_cstring_size (bytes : Str) : Nat :=
  bytes.findIdx (fun b => b == 0)

/-- Reading a fixed_cstring as done by load_optimized_string's inline
visitor: the bytes from begin() to end(), where end() is begin() plus
size() (fixed_string.hpp), i.e. the first size() bytes of m_data. -/
def fixed_cstring_read (bytes : Str) : Str :=
  bytes.take (fixed_cstring_size bytes)

/-- An optimized_string is either inlined (stored directly, padded to the
capacity) or moved to the heap storage (storage.hpp). -/
inductive OptimizedString where
  | inl (bytes : Str)
  | ref (r : Nat)
deriving DecidableEq

/-- Loads the string, dereferencing if necessary (load_optimized_string). -/
def load_optimized_string (h : Heap) : OptimizedString → Str
  | .inl bytes => fixed_cstring_read bytes
  | .ref r => load_string h r

/-- Stores the string by either inlining it (small strings) or saving it on
the heap (store_optimized_string). Sizes above 2^32 - 1 are rejected first. -/
def store_optimized_string (cap : Nat) (h : Heap) (s : Str) :
    Except DbError (OptimizedString × Heap) :=
  if u32max < s.length then .error .stringTooLarge
  else if s.length ≤ cap then .ok (.inl (fixed_cstring_make cap s), h)
  else
    let rh := store_string h s
    .ok (.ref rh.1, rh.2)

/-- The format of comments stored on disk (struct comment). -/
structure comment where
  created_at : Nat
  user : OptimizedString
  content : Nat
deriving DecidableEq

/-- The format of posts stored on disk (struct post). The comments field
stands for the list reachable from the stored list anchor. -/
structure post where
  id : Nat
  created_at : Nat
  user : OptimizedString
  title : OptimizedString
  content : Nat
  comments : List comment
deriving DecidableEq

/-- Inserting into the posts B-tree, represented as the ascending key order
of its records; an insert with an already present key leaves the tree
unchanged (prequel btree semantics for duplicate keys). -/
def btree_insert (p : post) : List post → List post
  | [] => [p]
  | q :: qs =>
    if p.id < q.id then p :: q :: qs
    else if p.id = q.id then q :: qs
    else q :: btree_insert p qs

/-- Lookup by key in the posts B-tree (btree find). -/
def btree_find (pid : Nat) : List post → Option post
  | [] => none
  | q :: qs => if q.id = pid then some q else btree_find pid qs

/-- Writing a record back through a cursor positioned at key pid
(cursor.set after find). -/
def btree_update (pid : Nat) (p : post) : List post → List post
  | [] => []
  | q :: qs => if q.id = pid then p :: qs else q :: btree_update pid p qs

/-- The persistent fields of storage::anchor: next_post_id, the posts tree
and the strings heap. -/
structure StorageState where
  next_post_id : Nat
  posts : List post
  strings : Heap
deriving DecidableEq

/-- The anchor of a freshly initialized database: next_post_id = 1,
empty posts tree, empty strings heap. -/
def freshState : StorageState := ⟨1, [], []⟩

/-- create_post: read the id, reject id 0 (wrap-around), store user, title
and content, insert the new post, bump next_post_id (u64 arithmetic).
The timestamp is passed in as the current clock value. -/
def create_post (now : Nat) (user title content : Str) (st : StorageState) :
    Except DbError (Nat × StorageState) :=
  let id := st.next_post_id
  if id = 0 then .error .idSpaceExhausted
  else
    match store_optimized_string 15 st.strings user with
    | .error e => .error e
    | .ok (u, h1) =>
      match store_optimized_string 31 h1 title with
      | .error e => .error e
      | .ok (t, h2) =>
        let ch := store_string h2 content
        let p : post := ⟨id, now, u, t, ch.1, []⟩
        .ok (id, ⟨(id + 1) % u64size, btree_insert p st.posts, ch.2⟩)

/-- create_comment: find the post (NotFound when absent), store user and
content, push the comment to the tail of the post's list, write the mutated
post back through the cursor. -/
def create_comment (now : Nat) (pid : Nat) (user content : Str)
    (st : StorageState) : Except DbError StorageState :=
  match btree_find pid st.posts with
  | none => .error .notFound
  | some p =>
    match store_optimized_string 15 st.strings user with
    | .error e => .error e
    | .ok (u, h1) =>
      let ch := store_string h1 content
      let c : comment := ⟨now, u, ch.1⟩
      .ok ⟨st.next_post_id,
           btree_update pid { p with comments := p.comments ++ [c] } st.posts,
           ch.2⟩

/-- The part of a post displayed on the front page (post_entry). -/
structure post_entry where
  id : Nat
  created_at : Nat
  user : Str
  title : Str
deriving DecidableEq

/-- frontpage_result: the source comment on entries reads newest entry
first. -/
structure frontpage_result where
  entries : List post_entry
deriving DecidableEq

/-- fetch_frontpage: walk the tree cursor from the maximum key downward,
collecting at most max_posts records, then reverse the collected vector,
then decode each record. -/
def fetch_frontpage (max_posts : Nat) (st : StorageState) : frontpage_result :=
  let found := (st.posts.reverse.take max_posts).reverse
  ⟨found.map fun p =>
    ⟨p.id, p.created_at,
     load_optimized_string st.strings p.user,
     load_optimized_string st.strings p.title⟩⟩

/-- comment_entry of post_result. -/
structure comment_entry where
  created_at : Nat
  user : Str
  content : Str
deriving DecidableEq

/-- post_result: the source comment on comments reads newest comment
first. -/
structure post_result where
  id : Nat
  created_at : Nat
  user : Str
  title : Str
  content : Str
  comments : List comment_entry
deriving DecidableEq

/-- fetch_post: find the post (NotFound when absent), walk its comment list
from the tail backward collecting at most max_comments records, reverse the
collected vector, and decode the post and comment strings. -/
def fetch_post (pid : Nat) (max_comments : Nat) (st : StorageState) :
    Except DbError post_result :=
  match btree_find pid st.posts with
  | none => .error .notFound
  | some p =>
    let found := (p.comments.reverse.take max_comments).reverse
    .ok ⟨p.id, p.created_at,
         load_optimized_string st.strings p.user,
         load_optimized_string st.strings p.title,
         load_string st.strings p.content,
         found.map fun c =>
           ⟨c.created_at,
            load_optimized_string st.strings c.user,
            load_string st.strings c.content⟩⟩

/-- Modelled from the spec: the dump implementation is not among the sources.
Per section 4.3 it writes a deterministic human-readable snapshot and reads
the store only, so it is a pure function of the state. -/
def dump (st : StorageState) : StorageState := st

/-- run_in_transaction (database.cpp): run fn on the committed state; when it
returns normally the engine commits the new state, when it raises the engine
rolls back to the committed state and the error is rethrown. -/
def run_in_transaction (fn : StorageState → Except DbError (α × StorageState))
    (committed : StorageState) : Except DbError α × StorageState :=
  match fn committed with
  | .ok as => (.ok as.1, as.2)
  | .error e => (.error e, committed)

/-- The public operations of the database, each wrapped in a transaction. -/
inductive Op where
  | opCreatePost (now : Nat) (user title content : Str)
  | opCreateComment (now : Nat) (pid : Nat) (user content : Str)
  | opFetchFrontpage (k : Nat)
  | opFetchPost (pid k : Nat)
  | opDump
deriving DecidableEq

/-- The state effect of one public operation, before transaction wrapping.
The fetch operations and dump are const member functions: they may fail but
never produce a new state. -/
def stepE : Op → StorageState → Except DbError StorageState
  | .opCreatePost now u t c, st =>
    match create_post now u t c st with
    | .ok r => .ok r.2
    | .error e => .error e
  | .opCreateComment now pid u c, st => create_comment now pid u c st
  | .opFetchFrontpage _, st => .ok st
  | .opFetchPost pid k, st =>
    match fetch_post pid k st with
    | .ok _ => .ok st
    | .error e => .error e
  | .opDump, st => .ok (dump st)

/-- The committed state after one public operation: the transaction driver
commits on success and rolls back on failure. -/
def applyOp (op : Op) (st : StorageState) : StorageState :=
  (run_in_transaction
    (fun s =>
      match stepE op s with
      | .ok s2 => .ok ((), s2)
      | .error e => .error e) st).2

/-- The committed state after a sequence of public operations. -/
def runOps (ops : List Op) (st : StorageState) : StorageState :=
  ops.foldl (fun s op => applyOp op s) st

/-- One create_post request per list element: the per-call results together
with the final committed state (failed calls roll back). -/
def runCreates : List (Nat × Str × Str × Str) → StorageState →
    List (Except DbError Nat) × StorageState
  | [], st => ([], st)
  | i :: rest, st =>
    match create_post i.1 i.2.1 i.2.2.1 i.2.2.2 st with
    | .ok r =>
      let rec1 := runCreates rest r.2
      (.ok r.1 :: rec1.1, rec1.2)
    | .error e =>
      let rec1 := runCreates rest st
      (.error e :: rec1.1, rec1.2)

/-- The ids of the records in the posts tree, in tree order. -/
def idList (st : StorageState) : List Nat := st.posts.map post.id

/-- Encode-then-decode over a given heap, as an observable value: none when
the encoder rejects the string. -/
def optimized_roundtrip (cap : Nat) (h : Heap) (s : Str) : Option Str :=
  match store_optimized_string cap h s with
  | .ok vh => some (load_optimized_string vh.2 vh.1)
  | .error _ => none

/- Helper lemmas about the embedded operations. -/

theorem store_opt_too_large {cap : Nat} {h : Heap} {s : Str}
    (hs : u32max < s.length) :
    store_optimized_string cap h s = .error .stringTooLarge := by
  unfold store_optimized_string
  rw [if_pos hs]

theorem store_opt_inline {cap : Nat} {h : Heap} {s : Str}
    (hlen : s.length ≤ u32max) (hcap : s.length ≤ cap) :
    store_optimized_string cap h s = .ok (.inl (fixed_cstring_make cap s), h) := by
  unfold store_optimized_string
  rw [if_neg (Nat.not_lt.2 hlen), if_pos hcap]

theorem store_opt_heap {cap : Nat} {h : Heap} {s : Str}
    (hlen : s.length ≤ u32max) (hcap : cap < s.length) :
    store_optimized_string cap h s = .ok (.ref h.length, h ++ [s]) := by
  unfold store_optimized_string
  rw [if_neg (Nat.not_lt.2 hlen), if_neg (Nat.not_le.2 hcap)]
  rfl

theorem store_opt_ok {cap : Nat} {h : Heap} {s : Str}
    (hlen : s.length ≤ u32max) :
    ∃ v h2, store_optimized_string cap h s = .ok (v, h2) := by
  by_cases hcap : s.length ≤ cap
  · exact ⟨_, _, store_opt_inline hlen hcap⟩
  · exact ⟨_, _, store_opt_heap hlen (Nat.not_le.1 hcap)⟩

theorem fixed_cstring_read_eq_takeWhile (bytes : Str) :
    fixed_cstring_read bytes = bytes.takeWhile (fun b => b != 0) := by
  unfold fixed_cstring_read fixed_cstring_size
  induction bytes with
  | nil => rfl
  | cons a l ih =>
    cases h : a == 0 with
    | true =>
      have ha : a = 0 := by simpa using h
      simp [List.findIdx_cons, List.takeWhile_cons, h, ha]
    | false =>
      have ha : a ≠ 0 := by simpa using h
      simp [List.findIdx_cons, List.takeWhile_cons, h, ha, ih]

theorem fixed_cstring_read_append (s : Str) (k : Nat) (hs : ∀ b ∈ s, b ≠ 0) :
    fixed_cstring_read (s ++ List.replicate k 0) = s := by
  rw [fixed_cstring_read_eq_takeWhile]
  induction s with
  | nil =>
    cases k with
    | zero => rfl
    | succ n => simp [List.replicate_succ, List.takeWhile_cons]
  | cons a s ih =>
    have ha : a ≠ 0 := hs a (List.mem_cons_self a s)
    have ih2 := ih fun b hb => hs b (List.mem_cons_of_mem a hb)
    simp only [List.cons_append, List.takeWhile_cons]
    simp [ha, ih2]

theorem load_string_last (h : Heap) (s : Str) :
    load_string (h ++ [s]) h.length = s := by
  unfold load_string
  rw [List.getD_append_right h [s] _ _ (Nat.le_refl _), Nat.sub_self]
  rfl

theorem load_string_mid (h : Heap) (s : Str) (rest : Heap) :
    load_string ((h ++ [s]) ++ rest) h.length = s := by
  unfold load_string
  rw [List.append_assoc,
    List.getD_append_right h ([s] ++ rest) _ _ (Nat.le_refl _), Nat.sub_self]
  rfl

theorem btree_insert_append {p : post} :
    ∀ {l : List post}, (∀ q ∈ l, q.id < p.id) → btree_insert p l = l ++ [p]
  | [], _ => rfl
  | q :: qs, hlt => by
    have hq : q.id < p.id := hlt q (List.mem_cons_self q qs)
    unfold btree_insert
    rw [if_neg (Nat.not_lt.2 (Nat.le_of_lt hq)),
      if_neg (Nat.ne_of_gt hq),
      btree_insert_append fun r hr => hlt r (List.mem_cons_of_mem q hr)]
    rfl

theorem btree_find_insert_self {p : post} :
    ∀ {l : List post}, (∀ q ∈ l, q.id ≠ p.id) →
      btree_find p.id (btree_insert p l) = some p
  | [], _ => by simp [btree_insert, btree_find]
  | q :: qs, hne => by
    have hq : q.id ≠ p.id := hne q (List.mem_cons_self q qs)
    unfold btree_insert
    by_cases hlt : p.id < q.id
    · rw [if_pos hlt]
      unfold btree_find
      rw [if_pos rfl]
    · rw [if_neg hlt, if_neg fun he => hq he.symm]
      unfold btree_find
      rw [if_neg hq]
      exact btree_find_insert_self fun r hr => hne r (List.mem_cons_of_mem q hr)

theorem btree_find_some {pid : Nat} {p : post} :
    ∀ {l : List post}, btree_find pid l = some p → p.id = pid
  | [], h => by simp [btree_find] at h
  | q :: qs, h => by
    unfold btree_find at h
    by_cases hq : q.id = pid
    · rw [if_pos hq] at h
      cases h
      exact hq
    · rw [if_neg hq] at h
      exact btree_find_some h

theorem btree_update_map_id {pid : Nat} {p : post} (hp : p.id = pid) :
    ∀ l : List post, (btree_update pid p l).map post.id = l.map post.id
  | [] => rfl
  | q :: qs => by
    unfold btree_update
    by_cases hq : q.id = pid
    · rw [if_pos hq]
      simp [hp, hq]
    · rw [if_neg hq]
      simp [btree_update_map_id hp qs]

theorem applyOp_of_ok {op : Op} {st s2 : StorageState}
    (h : stepE op st = .ok s2) : applyOp op st = s2 := by
  unfold applyOp run_in_transaction
  simp only [h]

theorem applyOp_of_error {op : Op} {st : StorageState} {e : DbError}
    (h : stepE op st = .error e) : applyOp op st = st := by
  unfold applyOp run_in_transaction
  simp only [h]

theorem create_post_ok_shape {now : Nat} {u t c : Str} {st : StorageState}
    {r : Nat × StorageState} (h : create_post now u t c st = .ok r) :
    st.next_post_id ≠ 0 ∧ r.1 = st.next_post_id ∧
    r.2.next_post_id = (st.next_post_id + 1) % u64size ∧
    ∃ p : post, p.id = st.next_post_id ∧
      r.2.posts = btree_insert p st.posts := by
  unfold create_post at h
  by_cases h0 : st.next_post_id = 0
  · rw [if_pos h0] at h
    cases h
  · rw [if_neg h0] at h
    cases hu : store_optimized_string 15 st.strings u with
    | error e => rw [hu] at h; cases h
    | ok uh =>
      obtain ⟨uv, h1⟩ := uh
      simp only [hu] at h
      cases ht : store_optimized_string 31 h1 t with
      | error e => simp only [ht] at h; exact Except.noConfusion h
      | ok th =>
        obtain ⟨tv, h2⟩ := th
        simp only [ht] at h
        cases h
        exact ⟨h0, rfl, rfl, _, rfl, rfl⟩

theorem create_comment_ok_shape {now pid : Nat} {u c : Str}
    {st st2 : StorageState} (h : create_comment now pid u c st = .ok st2) :
    st2.next_post_id = st.next_post_id ∧ idList st2 = idList st := by
  unfold create_comment at h
  cases hf : btree_find pid st.posts with
  | none => rw [hf] at h; cases h
  | some p =>
    simp only [hf] at h
    cases hu : store_optimized_string 15 st.strings u with
    | error e => simp only [hu] at h; exact Except.noConfusion h
    | ok uh =>
      obtain ⟨uv, h1⟩ := uh
      simp only [hu] at h
      cases h
      refine ⟨rfl, ?_⟩
      simp only [idList]
      have hid : p.id = pid := btree_find_some hf
      exact @btree_update_map_id pid
        ⟨p.id, p.created_at, p.user, p.title, p.content,
          p.comments ++ [⟨now, uv, (store_string h1 c).1⟩]⟩ hid st.posts

/-- Claim C1: fetch_frontpage collects from the maximum key downward and then
reverses, so on a database holding posts 1 and 2 the output lists id 1 first
and the maximum id 2 last, although the source's own comment on
frontpage_result.entries says the newest entry comes first. The claimed
ordering (maximum id first) does not hold; this theorem evaluates the code at
the failing input. -/
theorem C1_frontpage_oldest_first :
    ((fetch_frontpage 10
        (runOps [Op.opCreatePost 3 [] [] [], Op.opCreatePost 4 [] [] []]
          freshState)).entries.map post_entry.id) = [1, 2] ∧
    ([1, 2] : List Nat) ≠ [2, 1] := by
  exact ⟨by decide, by decide⟩

/-- Claim C2: after two comments (timestamps 5 then 6) on post 1, fetch_post
returns the comment entries in insertion order, oldest first, because the
backward walk from the list tail is reversed before decoding; the claimed
strictly newest-first order (and the source's own comment on
post_result.comments) does not hold. This theorem evaluates the code at the
failing input. -/
theorem C2_comments_oldest_first :
    (match fetch_post 1 10
        (runOps [Op.opCreatePost 3 [] [] [],
                 Op.opCreateComment 5 1 [97] [],
                 Op.opCreateComment 6 1 [98] []] freshState) with
     | .ok r => r.comments.map comment_entry.created_at
     | .error _ => []) = [5, 6] ∧ ([5, 6] : List Nat) ≠ [6, 5] := by
  exact ⟨by decide, by decide⟩

/-- Claim C3, counterexample: the one-byte string holding a single zero byte
(length 1, within the sizes the claim highlights) is inlined zero-padded, and
decoding stops at the first zero byte, returning the empty string instead of
the original. -/
theorem C3_counterexample :
    optimized_roundtrip 15 [] [0] = some [] ∧ some ([] : Str) ≠ some [0] := by
  exact ⟨by decide, by decide⟩

/-- Claim C3, amended: encoding then decoding over the same heap returns the
input exactly for every string of length at most 2^32 - 1 that either
contains no zero byte or is longer than the inline capacity (heap-stored
strings round-trip for arbitrary byte content). -/
theorem C3_roundtrip (cap : Nat) (h : Heap) (s : Str)
    (hlen : s.length ≤ u32max) (hs : 0 ∉ s ∨ cap < s.length) :
    optimized_roundtrip cap h s = some s := by
  unfold optimized_roundtrip
  by_cases hcap : s.length ≤ cap
  · have hzero : 0 ∉ s := by
      cases hs with
      | inl h0 => exact h0
      | inr hgt => exact absurd hcap (Nat.not_le.2 hgt)
    rw [store_opt_inline hlen hcap]
    simp only [load_optimized_string, fixed_cstring_make]
    rw [fixed_cstring_read_append s _ fun b hb hb0 => hzero (hb0 ▸ hb)]
  · rw [store_opt_heap hlen (Nat.not_le.1 hcap)]
    simp only [load_optimized_string]
    rw [load_string_last]

/-- Witness for C3_roundtrip at a concrete zero-free input. -/
theorem C3_roundtrip_witness :
    optimized_roundtrip 15 [] [1, 2, 3] = some [1, 2, 3] :=
  C3_roundtrip 15 [] [1, 2, 3] (by decide) (Or.inl (by decide))

/-- Claim C5: run_in_transaction commits the state produced by the wrapped
function on success, and on any error rolls back, leaving the committed
state (next_post_id, posts tree and strings heap alike) exactly as before
and rethrowing the same error. -/
theorem C5_transaction_atomic {α : Type}
    (fn : StorageState → Except DbError (α × StorageState))
    (st : StorageState) :
    (∀ e, fn st = .error e → run_in_transaction fn st = (.error e, st)) ∧
    (∀ a s2, fn st = .ok (a, s2) → run_in_transaction fn st = (.ok a, s2)) := by
  constructor
  · intro e he
    unfold run_in_transaction
    rw [he]
  · intro a s2 hok
    unfold run_in_transaction
    rw [hok]

/-- Witness for C5_transaction_atomic: a transaction body that raises
NotFound leaves the fresh state untouched and rethrows. -/
theorem C5_transaction_atomic_witness :
    run_in_transaction
      (fun _ => (.error .notFound : Except DbError (Nat × StorageState)))
      freshState = (.error .notFound, freshState) :=
  (C5_transaction_atomic
    (fun _ => (.error .notFound : Except DbError (Nat × StorageState)))
    freshState).1 .notFound rfl

/-- Claim C6: store_optimized_string raises StringTooLarge exactly for
strings longer than 2^32 - 1 bytes; otherwise it produces the inline variant
zero-padded to Cap bytes exactly when the length is at most Cap, and a heap
reference to a freshly allocated blob exactly when the length exceeds Cap. -/
theorem C6_store_classification (cap : Nat) (h : Heap) (s : Str) :
    (store_optimized_string cap h s = .error .stringTooLarge ↔
      u32max < s.length) ∧
    (s.length ≤ u32max → s.length ≤ cap →
      store_optimized_string cap h s =
        .ok (.inl (s ++ List.replicate (cap - s.length) 0), h)) ∧
    (s.length ≤ u32max → cap < s.length →
      store_optimized_string cap h s = .ok (.ref h.length, h ++ [s])) := by
  refine ⟨⟨fun herr => ?_, fun hgt => store_opt_too_large hgt⟩,
    fun hlen hcap => store_opt_inline hlen hcap,
    fun hlen hcap => store_opt_heap hlen hcap⟩
  by_cases hlen : u32max < s.length
  · exact hlen
  · obtain ⟨v, h2, hok⟩ := @store_opt_ok cap h s (Nat.not_lt.1 hlen)
    rw [hok] at herr
    exact Except.noConfusion herr

/-- Witness for C6_store_classification: a one-byte string is inlined
zero-padded at capacity 15. -/
theorem C6_store_classification_witness :
    store_optimized_string 15 [] [7] =
      .ok (.inl ([7] ++ List.replicate 14 0), []) :=
  (C6_store_classification 15 [] [7]).2.1 (by decide) (by decide)

theorem store_opt_spec (cap : Nat) (h : Heap) (s : Str)
    (hlen : s.length ≤ u32max) (hs : 0 ∉ s ∨ cap < s.length) :
    ∃ v hext, store_optimized_string cap h s = .ok (v, h ++ hext) ∧
      ∀ rest : Heap, load_optimized_string ((h ++ hext) ++ rest) v = s := by
  by_cases hcap : s.length ≤ cap
  · have hzero : 0 ∉ s := by
      cases hs with
      | inl h0 => exact h0
      | inr hgt => exact absurd hcap (Nat.not_le.2 hgt)
    refine ⟨.inl (fixed_cstring_make cap s), [], ?_, fun rest => ?_⟩
    · rw [List.append_nil]
      exact store_opt_inline hlen hcap
    · simp only [load_optimized_string, fixed_cstring_make]
      exact fixed_cstring_read_append s _ fun b hb hb0 => hzero (hb0 ▸ hb)
  · refine ⟨.ref h.length, [s],
      store_opt_heap hlen (Nat.not_le.1 hcap), fun rest => ?_⟩
    simp only [load_optimized_string]
    exact load_string_mid h s rest

/-- Claim C7, counterexample: create_post with a user name consisting of one
zero byte succeeds, but an immediately following fetch_post returns the empty
user string, because the inline encoding is delimited by its first zero
byte. -/
theorem C7_counterexample :
    (match create_post 0 [0] [] [] freshState with
     | .ok r =>
       match fetch_post 1 5 r.2 with
       | .ok p => some p.user
       | .error _ => none
     | .error _ => none) = some [] ∧ some ([] : Str) ≠ some [0] := by
  exact ⟨by decide, by decide⟩

/-- Claim C7, amended: for every state whose posts do not already use the
next id, create_post with user and title of legal length that are either
free of zero bytes or longer than their inline capacities (15 and 31)
succeeds, and an immediately following fetch_post with any k returns exactly
the stored user, title and content and an empty comments list. The content
string is unrestricted: it always round-trips through the heap. -/
theorem C7_create_fetch (st : StorageState) (now : Nat) (u t c : Str) (k : Nat)
    (hnz : st.next_post_id ≠ 0)
    (hready : ∀ q ∈ st.posts, q.id ≠ st.next_post_id)
    (hu : u.length ≤ u32max) (ht : t.length ≤ u32max)
    (hu0 : 0 ∉ u ∨ 15 < u.length) (ht0 : 0 ∉ t ∨ 31 < t.length) :
    ∃ st2 r, create_post now u t c st = .ok (st.next_post_id, st2) ∧
      fetch_post st.next_post_id k st2 = .ok r ∧
      r.user = u ∧ r.title = t ∧ r.content = c ∧ r.comments = [] := by
  obtain ⟨uv, uext, hstu, hldu⟩ := store_opt_spec 15 st.strings u hu hu0
  obtain ⟨tv, text, hstt, hldt⟩ :=
    store_opt_spec 31 (st.strings ++ uext) t ht ht0
  have hcp : create_post now u t c st =
      .ok (st.next_post_id,
        ⟨(st.next_post_id + 1) % u64size,
          btree_insert
            ⟨st.next_post_id, now, uv, tv,
              ((st.strings ++ uext) ++ text).length, []⟩ st.posts,
          ((st.strings ++ uext) ++ text) ++ [c]⟩) := by
    unfold create_post
    rw [if_neg hnz]
    simp only [hstu, hstt, store_string]
  have hfind : btree_find st.next_post_id
      (btree_insert
        ⟨st.next_post_id, now, uv, tv,
          ((st.strings ++ uext) ++ text).length, []⟩ st.posts) =
      some ⟨st.next_post_id, now, uv, tv,
        ((st.strings ++ uext) ++ text).length, []⟩ :=
    @btree_find_insert_self
      ⟨st.next_post_id, now, uv, tv,
        ((st.strings ++ uext) ++ text).length, []⟩ st.posts hready
  refine ⟨_,
    ⟨st.next_post_id, now,
      load_optimized_string (((st.strings ++ uext) ++ text) ++ [c]) uv,
      load_optimized_string (((st.strings ++ uext) ++ text) ++ [c]) tv,
      load_string (((st.strings ++ uext) ++ text) ++ [c])
        ((st.strings ++ uext) ++ text).length, []⟩,
    hcp, ?_, ?_, ?_, ?_, rfl⟩
  · simp only [fetch_post, hfind]
    simp
  · show load_optimized_string (((st.strings ++ uext) ++ text) ++ [c]) uv = u
    rw [List.append_assoc (st.strings ++ uext) text [c]]
    exact hldu (text ++ [c])
  · exact hldt [c]
  · exact load_string_last _ c

/-- Witness for C7_create_fetch: a concrete post round-trips on the fresh
database. -/
theorem C7_create_fetch_witness :
    ∃ st2 r, create_post 9 [5] [6] [7] freshState = .ok (1, st2) ∧
      fetch_post 1 4 st2 = .ok r ∧
      r.user = [5] ∧ r.title = [6] ∧ r.content = [7] ∧ r.comments = [] :=
  C7_create_fetch freshState 9 [5] [6] [7] 4 (by decide) (by decide)
    (by decide) (by decide) (Or.inl (by decide)) (Or.inl (by decide))

/-- Claim C8: create_comment and fetch_post fail with NotFound exactly when
the posts tree holds no post with the requested id, and in that case the
committed database state after the transaction is unchanged. -/
theorem C8_notfound_iff (st : StorageState) (pid now : Nat) (u c : Str)
    (k : Nat) :
    (create_comment now pid u c st = .error .notFound ↔
      btree_find pid st.posts = none) ∧
    (fetch_post pid k st = .error .notFound ↔
      btree_find pid st.posts = none) ∧
    (btree_find pid st.posts = none →
      applyOp (.opCreateComment now pid u c) st = st ∧
      applyOp (.opFetchPost pid k) st = st) := by
  cases hf : btree_find pid st.posts with
  | none =>
    have h1 : create_comment now pid u c st = .error .notFound := by
      unfold create_comment
      rw [hf]
    have h2 : fetch_post pid k st = .error .notFound := by
      unfold fetch_post
      rw [hf]
    refine ⟨⟨fun _ => rfl, fun _ => h1⟩, ⟨fun _ => rfl, fun _ => h2⟩,
      fun _ => ⟨?_, ?_⟩⟩
    · exact applyOp_of_error (show stepE _ st = .error .notFound from h1)
    · refine applyOp_of_error (e := .notFound) ?_
      simp only [stepE, h2]
  | some p =>
    have hcc : create_comment now pid u c st ≠ .error .notFound := by
      unfold create_comment
      rw [hf]
      cases hu : store_optimized_string 15 st.strings u with
      | error e =>
        have he : e = .stringTooLarge := by
          by_cases hl : u32max < u.length
          · rw [store_opt_too_large hl] at hu
            cases hu
            rfl
          · obtain ⟨v, h2, hok⟩ :=
              @store_opt_ok 15 st.strings u (Nat.not_lt.1 hl)
            rw [hok] at hu
            exact Except.noConfusion hu
        intro hbad
        simp only [hu] at hbad
        rw [he] at hbad
        cases hbad
      | ok uh =>
        obtain ⟨uv, h1⟩ := uh
        intro hbad
        simp only [hu] at hbad
        exact Except.noConfusion hbad
    have hfp : fetch_post pid k st ≠ .error .notFound := by
      unfold fetch_post
      rw [hf]
      intro hbad
      exact Except.noConfusion hbad
    exact ⟨⟨fun hbad => absurd hbad hcc, fun hn => Option.noConfusion hn⟩,
      ⟨fun hbad => absurd hbad hfp, fun hn => Option.noConfusion hn⟩,
      fun hn => Option.noConfusion hn⟩

/-- Witness for C8_notfound_iff: on the fresh database, post 7 is absent, so
both operations report NotFound and commit no change. -/
theorem C8_notfound_iff_witness :
    create_comment 0 7 [] [] freshState = .error .notFound ∧
    fetch_post 7 3 freshState = .error .notFound ∧
    applyOp (.opCreateComment 0 7 [] []) freshState = freshState ∧
    applyOp (.opFetchPost 7 3) freshState = freshState :=
  ⟨(C8_notfound_iff freshState 7 0 [] [] 3).1.mpr (by decide),
   (C8_notfound_iff freshState 7 0 [] [] 3).2.1.mpr (by decide),
   ((C8_notfound_iff freshState 7 0 [] [] 3).2.2 (by decide)).1,
   ((C8_notfound_iff freshState 7 0 [] [] 3).2.2 (by decide)).2⟩

/-- Claim C9: create_post raises StringTooLarge exactly when user or title
exceeds 2^32 - 1 bytes; the content argument is stored through store_string,
which performs no length check, so any content (of any length) never causes
StringTooLarge and the call succeeds whenever user and title are legal. -/
theorem C9_content_unchecked (st : StorageState) (now : Nat) (u t c : Str)
    (hnz : st.next_post_id ≠ 0) :
    (create_post now u t c st = .error .stringTooLarge ↔
      u32max < u.length ∨ u32max < t.length) ∧
    (u.length ≤ u32max → t.length ≤ u32max →
      ∃ r, create_post now u t c st = .ok r) := by
  by_cases hul : u32max < u.length
  · have herr : create_post now u t c st = .error .stringTooLarge := by
      unfold create_post
      rw [if_neg hnz]
      simp only [store_opt_too_large hul]
    exact ⟨⟨fun _ => Or.inl hul, fun _ => herr⟩,
      fun hu2 _ => absurd hul (Nat.not_lt.2 hu2)⟩
  · have hu2 : u.length ≤ u32max := Nat.not_lt.1 hul
    obtain ⟨uv, h1, hstu⟩ := @store_opt_ok 15 st.strings u hu2
    by_cases htl : u32max < t.length
    · have herr : create_post now u t c st = .error .stringTooLarge := by
        unfold create_post
        rw [if_neg hnz]
        simp only [hstu, store_opt_too_large htl]
      exact ⟨⟨fun _ => Or.inr htl, fun _ => herr⟩,
        fun _ ht2 => absurd htl (Nat.not_lt.2 ht2)⟩
    · have ht2 : t.length ≤ u32max := Nat.not_lt.1 htl
      obtain ⟨tv, h2, hstt⟩ := @store_opt_ok 31 h1 t ht2
      have hr : create_post now u t c st =
          .ok (st.next_post_id,
            ⟨(st.next_post_id + 1) % u64size,
              btree_insert ⟨st.next_post_id, now, uv, tv, h2.length, []⟩
                st.posts,
              h2 ++ [c]⟩) := by
        unfold create_post
        rw [if_neg hnz]
        simp only [hstu, hstt, store_string]
      refine ⟨⟨fun herr => ?_, fun hor => ?_⟩, fun _ _ => ⟨_, hr⟩⟩
      · rw [hr] at herr
        exact Except.noConfusion herr
      · cases hor with
        | inl hl => exact absurd hl hul
        | inr hl => exact absurd hl htl

/-- Witness for C9_content_unchecked: content of length 2^32 (longer than the
2^32 - 1 limit applied to user and title) is accepted. -/
theorem C9_content_unchecked_witness :
    ∃ r, create_post 0 [] [] (List.replicate (2 ^ 32) 7) freshState =
      .ok r :=
  (C9_content_unchecked freshState 0 [] [] (List.replicate (2 ^ 32) 7)
    (by decide)).2 (by decide) (by decide)

theorem create_post_id_zero {now : Nat} {u t c : Str} {st : StorageState}
    (h : st.next_post_id = 0) :
    create_post now u t c st = .error .idSpaceExhausted := by
  unfold create_post
  rw [if_pos h]

theorem runCreates_all_ok :
    ∀ (inputs : List (Nat × Str × Str × Str)) (st : StorageState),
      st.next_post_id < u64size →
      (runCreates inputs st).1.all Except.isOk = true →
      (runCreates inputs st).1 =
        (List.range' st.next_post_id inputs.length).map Except.ok
  | [], st, _, _ => rfl
  | i :: rest, st, hlt, hall => by
    unfold runCreates
    cases hcp : create_post i.1 i.2.1 i.2.2.1 i.2.2.2 st with
    | error e =>
      exfalso
      unfold runCreates at hall
      simp only [hcp, List.all_cons, Bool.and_eq_true] at hall
      exact Bool.noConfusion hall.1
    | ok r =>
      obtain ⟨h0, hr1, hrnext, p, hpid, hposts⟩ := create_post_ok_shape hcp
      have htail : (runCreates rest r.2).1.all Except.isOk = true := by
        unfold runCreates at hall
        simp only [hcp, List.all_cons, Bool.and_eq_true] at hall
        exact hall.2
      have hrange : List.range' st.next_post_id (rest.length + 1) =
          st.next_post_id :: List.range' (st.next_post_id + 1) rest.length :=
        List.range'_succ st.next_post_id rest.length 1
      simp only [List.length_cons, hrange, List.map_cons]
      rw [hr1]
      refine congrArg (Except.ok st.next_post_id :: ·) ?_
      rcases Nat.lt_or_ge (st.next_post_id + 1) u64size with hlt1 | hge
      · have hs2 : r.2.next_post_id = st.next_post_id + 1 := by
          rw [hrnext]
          exact Nat.mod_eq_of_lt hlt1
        have := runCreates_all_ok rest r.2 (by rw [hs2]; exact hlt1) htail
        rw [hs2] at this
        exact this
      · have heq : st.next_post_id + 1 = u64size :=
          Nat.le_antisymm (Nat.succ_le_of_lt hlt) hge
        have hz : r.2.next_post_id = 0 := by
          rw [hrnext, heq]
          exact Nat.mod_self u64size
        cases rest with
        | nil => rfl
        | cons j rest2 =>
          exfalso
          unfold runCreates at htail
          rw [create_post_id_zero hz] at htail
          simp only [List.all_cons, Bool.and_eq_true] at htail
          exact Bool.noConfusion htail.1

/-- Claim C4: starting from a freshly initialized database, if every
create_post call in the sequence succeeds, the returned ids are exactly
1, 2, 3, ... in call order; in particular they are strictly increasing and
pairwise distinct. -/
theorem C4_sequential_ids (inputs : List (Nat × Str × Str × Str))
    (hall : (runCreates inputs freshState).1.all Except.isOk = true) :
    (runCreates inputs freshState).1 =
      (List.range' 1 inputs.length).map Except.ok ∧
    ((runCreates inputs freshState).1).Nodup := by
  have h := runCreates_all_ok inputs freshState (by decide) hall
  refine ⟨h, ?_⟩
  rw [h]
  exact (List.nodup_range' 1 inputs.length).map fun a b hab => by
    injection hab

/-- Witness for C4_sequential_ids: three successful calls return 1, 2, 3. -/
theorem C4_sequential_ids_witness :
    (runCreates [(0, [], [], []), (1, [], [], []), (2, [], [], [])]
      freshState).1 = (List.range' 1 3).map Except.ok ∧
    ((runCreates [(0, [], [], []), (1, [], [], []), (2, [], [], [])]
      freshState).1).Nodup :=
  C4_sequential_ids [(0, [], [], []), (1, [], [], []), (2, [], [], [])]
    (by decide)

/-- The reachable-state invariant behind claim C10: next_post_id stays below
2^64, and the tree's key list is 1 .. next_post_id - 1 in order, except in
the wrapped state next_post_id = 0 where it is 1 .. 2^64 - 1. -/
def Inv (st : StorageState) : Prop :=
  st.next_post_id < u64size ∧
  (st.next_post_id ≠ 0 → idList st = List.range' 1 (st.next_post_id - 1)) ∧
  (st.next_post_id = 0 → idList st = List.range' 1 (u64size - 1))

theorem inv_fresh : Inv freshState :=
  ⟨by decide, fun _ => rfl, fun h => absurd h (by decide)⟩

theorem range'_concat_id {n : Nat} (h0 : n ≠ 0) :
    List.range' 1 (n - 1) ++ [n] = List.range' 1 n := by
  have h2 : List.range' 1 (n - 1 + 1) =
      List.range' 1 (n - 1) ++ [1 + 1 * (n - 1)] :=
    List.range'_concat 1 (n - 1)
  have e1 : n - 1 + 1 = n := by omega
  have e2 : 1 + 1 * (n - 1) = n := by omega
  rw [e1, e2] at h2
  exact h2.symm

theorem inv_applyOp (op : Op) (st : StorageState) (hinv : Inv st) :
    Inv (applyOp op st) := by
  cases hstep : stepE op st with
  | error e =>
    rw [applyOp_of_error hstep]
    exact hinv
  | ok s2 =>
    rw [applyOp_of_ok hstep]
    cases op with
    | opCreatePost now u t c =>
      cases hcp : create_post now u t c st with
      | error e =>
        simp only [stepE, hcp] at hstep
        exact Except.noConfusion hstep
      | ok r =>
        simp only [stepE, hcp] at hstep
        cases hstep
        obtain ⟨h0, hr1, hrnext, p, hpid, hposts⟩ := create_post_ok_shape hcp
        obtain ⟨hlt, hne, hzero⟩ := hinv
        have hids : st.posts.map post.id =
            List.range' 1 (st.next_post_id - 1) := hne h0
        have hmem : ∀ q ∈ st.posts, q.id < p.id := by
          intro q hq
          have hq2 : q.id ∈ st.posts.map post.id :=
            List.mem_map_of_mem post.id hq
          rw [hids] at hq2
          have hq3 := List.mem_range'_1.1 hq2
          rw [hpid]
          omega
        have hidl : idList r.2 = List.range' 1 st.next_post_id := by
          show r.2.posts.map post.id = _
          rw [hposts, btree_insert_append hmem, List.map_append, hids]
          simp only [List.map_cons, List.map_nil, hpid]
          exact range'_concat_id h0
        have hle : st.next_post_id + 1 ≤ u64size := Nat.succ_le_of_lt hlt
        refine ⟨?_, fun hne2 => ?_, fun hz2 => ?_⟩
        · rw [hrnext]
          exact Nat.mod_lt _ (by decide)
        · rw [hrnext] at hne2 ⊢
          rcases Nat.lt_or_ge (st.next_post_id + 1) u64size with hlt1 | hge
          · rw [Nat.mod_eq_of_lt hlt1] at hne2 ⊢
            rw [hidl]
            simp
          · have heq : st.next_post_id + 1 = u64size :=
              Nat.le_antisymm hle hge
            rw [heq, Nat.mod_self] at hne2
            exact absurd rfl hne2
        · rw [hrnext] at hz2
          have heq : st.next_post_id + 1 = u64size := by
            rcases Nat.lt_or_ge (st.next_post_id + 1) u64size with hlt1 | hge
            · rw [Nat.mod_eq_of_lt hlt1] at hz2
              omega
            · exact Nat.le_antisymm hle hge
          rw [hidl]
          have : u64size - 1 = st.next_post_id := by omega
          rw [this]
    | opCreateComment now pid u c =>
      have hcc : create_comment now pid u c st = .ok s2 := hstep
      obtain ⟨hn2, hi2⟩ := create_comment_ok_shape hcc
      obtain ⟨hlt, hne, hzero⟩ := hinv
      refine ⟨?_, fun h => ?_, fun h => ?_⟩
      · rw [hn2]
        exact hlt
      · rw [hn2] at h
        rw [hi2, hn2]
        exact hne h
      · rw [hn2] at h
        rw [hi2]
        exact hzero h
    | opFetchFrontpage k =>
      simp only [stepE] at hstep
      cases hstep
      exact hinv
    | opFetchPost pid k =>
      cases hfp : fetch_post pid k st with
      | error e =>
        simp only [stepE, hfp] at hstep
        exact Except.noConfusion hstep
      | ok r =>
        simp only [stepE, hfp] at hstep
        cases hstep
        exact hinv
    | opDump =>
      simp only [stepE, dump] at hstep
      cases hstep
      exact hinv

theorem inv_runOps :
    ∀ (ops : List Op) (st : StorageState), Inv st → Inv (runOps ops st)
  | [], _, hinv => hinv
  | op :: ops, st, hinv =>
    inv_runOps ops (applyOp op st) (inv_applyOp op st hinv)

theorem applyOp_read_preserves (op : Op) (st : StorageState)
    (hop : ∀ now u t c, op ≠ Op.opCreatePost now u t c) :
    (applyOp op st).next_post_id = st.next_post_id ∧
    idList (applyOp op st) = idList st := by
  cases op with
  | opCreatePost now u t c => exact absurd rfl (hop now u t c)
  | opCreateComment now pid u c =>
    cases hcc : create_comment now pid u c st with
    | error e =>
      rw [applyOp_of_error
        (show stepE (Op.opCreateComment now pid u c) st = .error e from hcc)]
      exact ⟨rfl, rfl⟩
    | ok s2 =>
      rw [applyOp_of_ok
        (show stepE (Op.opCreateComment now pid u c) st = .ok s2 from hcc)]
      exact create_comment_ok_shape hcc
  | opFetchFrontpage k =>
    rw [applyOp_of_ok (show stepE (.opFetchFrontpage k) st = .ok st from rfl)]
    exact ⟨rfl, rfl⟩
  | opFetchPost pid k =>
    cases hfp : fetch_post pid k st with
    | error e =>
      refine And.imp id id ?_
      rw [applyOp_of_error (e := e) (by simp only [stepE, hfp])]
      exact ⟨rfl, rfl⟩
    | ok r =>
      rw [@applyOp_of_ok (Op.opFetchPost pid k) st st
        (by simp only [stepE, hfp])]
      exact ⟨rfl, rfl⟩
  | opDump =>
    rw [applyOp_of_ok (show stepE Op.opDump st = .ok st from rfl)]
    exact ⟨rfl, rfl⟩

/-- Claim C10, amended: in every committed state reachable from a fresh
database whose next_post_id has not wrapped to 0 (which needs 2^64 - 1
successful create_post calls), next_post_id is at least 1 and the tree's
key list is exactly 1 .. next_post_id - 1, each id once; and create_comment,
fetch_frontpage, fetch_post and dump never change next_post_id or the id
list, on any state whatsoever. -/
theorem C10_id_invariant (ops : List Op) :
    ((runOps ops freshState).next_post_id ≠ 0 →
      1 ≤ (runOps ops freshState).next_post_id ∧
      idList (runOps ops freshState) =
        List.range' 1 ((runOps ops freshState).next_post_id - 1) ∧
      (idList (runOps ops freshState)).Nodup) ∧
    (∀ (st : StorageState) (op : Op),
      (∀ now u t c, op ≠ Op.opCreatePost now u t c) →
      (applyOp op st).next_post_id = st.next_post_id ∧
      idList (applyOp op st) = idList st) := by
  refine ⟨fun hnz => ?_, fun st op hop => applyOp_read_preserves op st hop⟩
  have hinv := inv_runOps ops freshState inv_fresh
  refine ⟨Nat.pos_of_ne_zero hnz, hinv.2.1 hnz, ?_⟩
  rw [hinv.2.1 hnz]
  exact List.nodup_range' 1 _

/-- Witness for C10_id_invariant: after one create_post the key list is [1]
and next_post_id is 2; dump changes nothing. -/
theorem C10_id_invariant_witness :
    (1 ≤ (runOps [Op.opCreatePost 0 [] [] []] freshState).next_post_id ∧
      idList (runOps [Op.opCreatePost 0 [] [] []] freshState) =
        List.range' 1
          ((runOps [Op.opCreatePost 0 [] [] []] freshState).next_post_id - 1) ∧
      (idList (runOps [Op.opCreatePost 0 [] [] []] freshState)).Nodup) ∧
    (applyOp Op.opDump freshState).next_post_id = freshState.next_post_id :=
  ⟨(C10_id_invariant [Op.opCreatePost 0 [] [] []]).1 (by decide),
   ((C10_id_invariant [Op.opCreatePost 0 [] [] []]).2 freshState Op.opDump
     fun _ _ _ _ h => Op.noConfusion h).1⟩

theorem wrap_next_post_id :
    ∀ (n : Nat) (st : StorageState), st.next_post_id ≠ 0 →
      st.next_post_id < u64size → st.next_post_id + n ≤ u64size →
      (runOps (List.replicate n (Op.opCreatePost 0 [] [] []))
        st).next_post_id = (st.next_post_id + n) % u64size
  | 0, st, _, hlt, _ => by
    simp only [List.replicate, runOps, List.foldl_nil, Nat.add_zero]
    exact (Nat.mod_eq_of_lt hlt).symm
  | n + 1, st, h0, hlt, hbound => by
    have hcp : create_post 0 [] [] [] st =
        .ok (st.next_post_id,
          ⟨(st.next_post_id + 1) % u64size,
            btree_insert
              ⟨st.next_post_id, 0, .inl (fixed_cstring_make 15 []),
                .inl (fixed_cstring_make 31 []), st.strings.length, []⟩
              st.posts,
            st.strings ++ [[]]⟩) := by
      have hs15 : store_optimized_string 15 st.strings [] =
          .ok (.inl (fixed_cstring_make 15 []), st.strings) :=
        store_opt_inline (by decide) (by decide)
      have hs31 : store_optimized_string 31 st.strings [] =
          .ok (.inl (fixed_cstring_make 31 []), st.strings) :=
        store_opt_inline (by decide) (by decide)
      unfold create_post
      rw [if_neg h0]
      simp only [hs15, hs31, store_string]
    have happ : applyOp (Op.opCreatePost 0 [] [] []) st =
        ⟨(st.next_post_id + 1) % u64size,
          btree_insert
            ⟨st.next_post_id, 0, .inl (fixed_cstring_make 15 []),
              .inl (fixed_cstring_make 31 []), st.strings.length, []⟩
            st.posts,
          st.strings ++ [[]]⟩ :=
      applyOp_of_ok (by simp only [stepE, hcp])
    have hstep : runOps
        (List.replicate (n + 1) (Op.opCreatePost 0 [] [] [])) st =
        runOps (List.replicate n (Op.opCreatePost 0 [] [] []))
          (applyOp (Op.opCreatePost 0 [] [] []) st) := rfl
    rw [hstep, happ]
    rcases Nat.lt_or_ge (st.next_post_id + 1) u64size with hlt1 | hge
    · have hmod : (st.next_post_id + 1) % u64size = st.next_post_id + 1 :=
        Nat.mod_eq_of_lt hlt1
      have hres := wrap_next_post_id n
        ⟨(st.next_post_id + 1) % u64size,
          btree_insert
            ⟨st.next_post_id, 0, .inl (fixed_cstring_make 15 []),
              .inl (fixed_cstring_make 31 []), st.strings.length, []⟩
            st.posts,
          st.strings ++ [[]]⟩
        (by simp only [hmod]; exact Nat.succ_ne_zero _)
        (by simp only [hmod]; exact hlt1)
        (by simp only [hmod]; omega)
      rw [hres]
      simp only [hmod]
      refine congrArg (· % u64size) ?_
      omega
    · have heq : st.next_post_id + 1 = u64size :=
        Nat.le_antisymm (Nat.succ_le_of_lt hlt) hge
      have hn0 : n = 0 := by omega
      subst hn0
      simp only [List.replicate, runOps, List.foldl_nil]

/-- Claim C10, counterexample: after 2^64 - 1 successful create_post calls
the committed next_post_id has wrapped to 0 (u64 arithmetic), so the claimed
invariant next_post_id >= 1 fails in this reachable state. -/
theorem C10_counterexample :
    (runOps (List.replicate (u64size - 1) (Op.opCreatePost 0 [] [] []))
      freshState).next_post_id = 0 ∧
    ¬ 1 ≤ (runOps (List.replicate (u64size - 1) (Op.opCreatePost 0 [] [] []))
      freshState).next_post_id := by
  have h := wrap_next_post_id (u64size - 1) freshState (by decide) (by decide)
    (by decide)
  have h2 : (freshState.next_post_id + (u64size - 1)) % u64size = 0 := by
    have e1 : freshState.next_post_id + (u64size - 1) = u64size := by decide
    rw [e1]
    exact Nat.mod_self u64size
  refine ⟨h.trans h2, ?_⟩
  rw [h.trans h2]
  decide

end Blabber
